import Mathlib

/-!
Verification of the market-order liquidity-sweep engine of the gemini-cli
repository (`commands.go`, function `market` and its helpers).  Floating-point
values of the Go source are embedded as exact rationals; Go's `int(x)`
conversion is embedded as truncation toward zero.  External collaborators
(order-book queries, order submission) are an explicit environment supplying
one result per loop iteration.
-/

namespace Gemini

/-- Constant `RETRIES_MAX` of the source. -/
def RETRIES_MAX : ℕ := 50

/-- Error string `ERROR_INVALID_AMOUNT` of the source. -/
def ERROR_INVALID_AMOUNT : String := "Amount or Base Amount must be above 0"

/-- Error string `ERROR_MAX_RETRIES` of the source. -/
def ERROR_MAX_RETRIES : String := "Max retries"

/-- Error string `ERROR_NO_ASKS` of the source. -/
def ERROR_NO_ASKS : String := "No asks in book"

/-- Error string `ERROR_NO_BIDS` of the source. -/
def ERROR_NO_BIDS : String := "No bids in book"

/-- One price level of the order book (`gemini.BookEntry`). -/
structure BookEntry where
  price : ℚ
  amount : ℚ
deriving DecidableEq, Repr

/-- An order book as returned by `g.OrderBook` (only the sides matter here). -/
structure Book where
  asks : List BookEntry
  bids : List BookEntry
deriving DecidableEq, Repr

/-- The fill information of a submitted order (`gemini.Order`), restricted to
the fields the sweep engine reads. -/
structure Order where
  executedAmount : ℚ
  avgExecutionPrice : ℚ
deriving DecidableEq, Repr

/-- Go's `float64` → `int` conversion: truncation toward zero. -/
def trunc (x : ℚ) : ℤ := if 0 ≤ x then ⌊x⌋ else ⌈x⌉

/-- The power `pow` computed by the loop `for i := 0; i < decimals; i++ { pow *= 10 }`
in `round`. -/
def pow10 (decimals : ℕ) : ℚ := 10 ^ decimals

/-- Function `round` of the source: `float64(int((v*pow)+0.5)) / pow`. -/
def round (v : ℚ) (decimals : ℕ) : ℚ :=
  (trunc (v * pow10 decimals + 1/2) : ℚ) / pow10 decimals

/-- Function `getFeeRatio` of the source: `float64(bps) / 10000`. -/
def getFeeRatio (bps : ℤ) : ℚ := (bps : ℚ) / 10000

/-- Function `getOrderBookEntry` of the source (the error-returning variant used by the
`market` command): takes the result of `g.OrderBook(mkt, 1, 1)` and selects the
best entry of the relevant side, failing when that side is empty. -/
def getOrderBookEntry (side : String) (bookRes : Except String Book) :
    Except String BookEntry :=
  match bookRes with
  | .error e => .error e
  | .ok book =>
    if side = "buy" then
      match book.asks with
      | [] => .error ERROR_NO_ASKS
      | a :: _ => .ok a
    else
      match book.bids with
      | [] => .error ERROR_NO_BIDS
      | b :: _ => .ok b

/-- What the external world answers during one loop iteration: the result of
the `g.OrderBook` call, and the result of `g.NewOrder` as a function of the
submitted size and price. -/
structure IterEnv where
  bookRes : Except String Book
  newOrder : ℚ → ℚ → Except String Order

/-- The per-sweep constants of the `market` loop, fixed before the loop starts:
side, rounding precision, fee-adjusted quote amount, base amount, termination
tolerance, and the json flag. -/
structure SweepCfg where
  side : String
  decimals : ℕ
  amount : ℚ
  baseAmount : ℚ
  minAmt : ℚ
  json : Bool
deriving DecidableEq, Repr

/-- The `minAmt` computation of `market` (two sequential conditional
overrides of the default 0.000001). -/
def computeMinAmt (mkt : String) (amount baseAmount : ℚ) : ℚ :=
  let minAmt : ℚ := 1/1000000
  let minAmt := if (mkt = "btcusd" ∨ mkt = "ethusd") ∧ amount > 0 then 1/100 else minAmt
  if (mkt = "ethbtc" ∨ mkt = "ethusd") ∧ baseAmount > 0 then 1/10000 else minAmt

/-- The pre-loop setup of `market`: decimals from the market, `minAmt` from the
raw amounts, and the one-time fee adjustment of the quote amount. -/
def sweepCfg (mkt side : String) (amount baseAmount : ℚ) (bps : ℤ) (json : Bool) :
    SweepCfg :=
  let decimals : ℕ := if mkt ≠ "btcusd" then 6 else 8
  let minAmt := computeMinAmt mkt amount baseAmount
  let feeRatio := getFeeRatio bps
  let amount := if side = "buy" then amount - amount * feeRatio
                else amount + amount * feeRatio
  ⟨side, decimals, amount, baseAmount, minAmt, json⟩

/-- The slice size before clamping (`fillAmount`/`btcAmount` computation of the
loop body, lines before the clamp). -/
def rawSlice (cfg : SweepCfg) (executedAmt : ℚ) (bookEntry : BookEntry) : ℚ :=
  let fillAmount := if cfg.amount > 0 then cfg.amount else cfg.baseAmount
  let fillAmount := if executedAmt > 0 then fillAmount - executedAmt else fillAmount
  if cfg.amount > 0 then round (fillAmount / bookEntry.price) cfg.decimals
  else round fillAmount cfg.decimals

/-- The submitted slice: the raw slice clamped to the displayed top-of-book
quantity (`if bookEntry.Amount < btcAmount { btcAmount = round(bookEntry.Amount, decimals) }`). -/
def sliceSize (cfg : SweepCfg) (executedAmt : ℚ) (bookEntry : BookEntry) : ℚ :=
  let btcAmount := rawSlice cfg executedAmt bookEntry
  if bookEntry.amount < btcAmount then round bookEntry.amount cfg.decimals
  else btcAmount

/-- Result of one pass through the loop body (after the retry-ceiling check):
abort with an error before or at submission, return nil, or continue looping
with the updated accumulator.  Each constructor records the `(size, price)`
pair of the `g.NewOrder` call when one was made. -/
inductive StepRes where
  | errBeforeSubmit (e : String)
  | errAtSubmit (e : String) (sub : ℚ × ℚ)
  | retNil (sub : ℚ × ℚ) (executedAmt : ℚ)
  | cont (sub : ℚ × ℚ) (executedAmt : ℚ)
deriving DecidableEq, Repr

/-- The fill-accounting update of the loop body: quote-denominated sweeps add
`order.ExecutedAmount * order.AvgExecutionPrice`, base-denominated ones add
`order.ExecutedAmount`. -/
def accumulate (amount executedAmt : ℚ) (order : Order) : ℚ :=
  if amount > 0 then executedAmt + order.executedAmount * order.avgExecutionPrice
  else executedAmt + order.executedAmount

/-- One pass through the body of the `market` loop: book query, slice sizing,
order submission, the `unsafe`-flag early return (`armed` embeds
`c.Bool("unsafe")`), fill accounting, and the termination check. -/
def marketStep (cfg : SweepCfg) (armed : Bool) (envi : IterEnv)
    (executedAmt : ℚ) : StepRes :=
  match getOrderBookEntry cfg.side envi.bookRes with
  | .error e => .errBeforeSubmit e
  | .ok bookEntry =>
    match envi.newOrder (sliceSize cfg executedAmt bookEntry) bookEntry.price with
    | .error e => .errAtSubmit e (sliceSize cfg executedAmt bookEntry, bookEntry.price)
    | .ok order =>
      if armed = false then
        .retNil (sliceSize cfg executedAmt bookEntry, bookEntry.price) executedAmt
      else
        if (cfg.amount > 0 ∧ accumulate cfg.amount executedAmt order ≥ cfg.amount - cfg.minAmt) ∨
           (cfg.baseAmount > 0 ∧
             accumulate cfg.amount executedAmt order ≥ cfg.baseAmount - cfg.minAmt) then
          .retNil (sliceSize cfg executedAmt bookEntry, bookEntry.price)
            (accumulate cfg.amount executedAmt order)
        else
          .cont (sliceSize cfg executedAmt bookEntry, bookEntry.price)
            (accumulate cfg.amount executedAmt order)

/-- The observable outcome of a `market` invocation: the returned error (or
nil), the sequence of `(size, price)` pairs submitted to `g.NewOrder` in
order, and the final value of the fill accumulator. -/
structure SweepOutcome where
  result : Except String Unit
  submissions : List (ℚ × ℚ)
  executedAmt : ℚ
deriving Repr

/-- The `for` loop of `market`: the retry-ceiling check at the top, then one
`marketStep`; `retries` increments once per completed insufficient iteration.
The `fuel` argument is an upper bound on the remaining passes, purely for
termination of the definition; `market` supplies `RETRIES_MAX + 1`, which is
never exhausted because the ceiling check fires first. -/
def marketLoop (cfg : SweepCfg) (armed : Bool) (env : ℕ → IterEnv) :
    ℕ → ℕ → ℚ → List (ℚ × ℚ) → SweepOutcome
  | 0, _, executedAmt, subs => ⟨.error ERROR_MAX_RETRIES, subs.reverse, executedAmt⟩
  | fuel + 1, retries, executedAmt, subs =>
    if retries = RETRIES_MAX then
      ⟨.error ERROR_MAX_RETRIES, subs.reverse, executedAmt⟩
    else
      match marketStep cfg armed (env retries) executedAmt with
      | .errBeforeSubmit e => ⟨.error e, subs.reverse, executedAmt⟩
      | .errAtSubmit e sub => ⟨.error e, (sub :: subs).reverse, executedAmt⟩
      | .retNil sub executedAmt => ⟨.ok (), (sub :: subs).reverse, executedAmt⟩
      | .cont sub executedAmt =>
        marketLoop cfg armed env fuel (retries + 1) executedAmt (sub :: subs)

/-- The `market` command action of `commands.go` (lines 198–308): validation,
pre-loop setup, then the sweep loop starting at `retries = 0`,
`executedAmt = 0`.  `armed` embeds `c.Bool("unsafe")`. -/
def market (mkt side : String) (amount baseAmount : ℚ) (bps : ℤ)
    (armed json : Bool) (env : ℕ → IterEnv) : SweepOutcome :=
  if amount ≤ 0 ∧ baseAmount ≤ 0 then ⟨.error ERROR_INVALID_AMOUNT, [], 0⟩
  else
    marketLoop (sweepCfg mkt side amount baseAmount bps json) armed env
      (RETRIES_MAX + 1) 0 0 []

/-- The registered flag names (including one-letter aliases) of the `market`
subcommand in the urfave/cli command table. -/
def marketFlags : List String :=
  ["amt", "a", "base-amt", "A", "bps", "json", "j", "mkt", "m", "side", "s"]

/-- The rounding formula as the spec states it:
`floor(value × 10^decimals + 0.5) / 10^decimals`. -/
def roundSpec (v : ℚ) (decimals : ℕ) : ℚ :=
  ((⌊v * 10 ^ decimals + 1/2⌋ : ℤ) : ℚ) / 10 ^ decimals

/-- The fill accumulator entering loop iteration `i` of the armed sweep
(`retries = i`), as determined by the environment: 0 initially, updated by
each continuing step. -/
def stateAt (cfg : SweepCfg) (env : ℕ → IterEnv) : ℕ → ℚ
  | 0 => 0
  | i + 1 =>
    match marketStep cfg true (env i) (stateAt cfg env i) with
    | .cont _ e => e
    | _ => stateAt cfg env i

/-- A base-denominated sell environment: bids always offer price 100 with
amount 10, and every order executes fully at the submitted size and price. -/
def envC1 : ℕ → IterEnv := fun _ =>
  ⟨.ok ⟨[], [⟨100, 10⟩]⟩, fun q p => .ok ⟨q, p⟩⟩

/-- An environment whose top ask displays the amount 0.0000015 (more precise
than 6 decimals) at price 1; every order executes fully. -/
def envC4 : ℕ → IterEnv := fun _ =>
  ⟨.ok ⟨[⟨1, 3/2000000⟩], []⟩, fun q p => .ok ⟨q, p⟩⟩

/-- An environment with unlimited asks at price 50000 where every order
executes fully at the submitted size and price. -/
def envC8 : ℕ → IterEnv := fun _ =>
  ⟨.ok ⟨[⟨50000, 1⟩], []⟩, fun q p => .ok ⟨q, p⟩⟩

/-- An environment with asks at price 50000 whose orders never execute
anything: every fill reports executed amount 0. -/
def envC3 : ℕ → IterEnv := fun _ =>
  ⟨.ok ⟨[⟨50000, 1⟩], []⟩, fun _ _ => .ok ⟨0, 0⟩⟩

/-- An environment with asks at price 50000 whose orders report an enormous
executed amount at price 1. -/
def envC10 : ℕ → IterEnv := fun _ =>
  ⟨.ok ⟨[⟨50000, 1⟩], []⟩, fun _ _ => .ok ⟨1000000, 1⟩⟩

/-- Unfolding the loop once: ceiling check, then one pass of the body. -/
theorem marketLoop_succ (cfg : SweepCfg) (armed : Bool) (env : ℕ → IterEnv)
    (fuel retries : ℕ) (executedAmt : ℚ) (subs : List (ℚ × ℚ)) :
    marketLoop cfg armed env (fuel + 1) retries executedAmt subs =
      if retries = RETRIES_MAX then
        ⟨.error ERROR_MAX_RETRIES, subs.reverse, executedAmt⟩
      else
        match marketStep cfg armed (env retries) executedAmt with
        | .errBeforeSubmit e => ⟨.error e, subs.reverse, executedAmt⟩
        | .errAtSubmit e sub => ⟨.error e, (sub :: subs).reverse, executedAmt⟩
        | .retNil sub executedAmt' => ⟨.ok (), (sub :: subs).reverse, executedAmt'⟩
        | .cont sub executedAmt' =>
          marketLoop cfg armed env fuel (retries + 1) executedAmt' (sub :: subs) := by
  rfl

/-- Unfolding `market` to preamble plus loop. -/
theorem market_def (mkt side : String) (amount baseAmount : ℚ) (bps : ℤ)
    (armed json : Bool) (env : ℕ → IterEnv) :
    market mkt side amount baseAmount bps armed json env =
      if amount ≤ 0 ∧ baseAmount ≤ 0 then ⟨.error ERROR_INVALID_AMOUNT, [], 0⟩
      else
        marketLoop (sweepCfg mkt side amount baseAmount bps json) armed env
          (RETRIES_MAX + 1) 0 0 [] := by
  rfl

/-- A step with the `unsafe` flag false returns nil right after the
submission, leaving the accumulator untouched. -/
theorem marketStep_unarmed_of (cfg : SweepCfg) (envi : IterEnv) (executedAmt : ℚ)
    (be : BookEntry) (o : Order)
    (hbe : getOrderBookEntry cfg.side envi.bookRes = .ok be)
    (ho : envi.newOrder (sliceSize cfg executedAmt be) be.price = .ok o) :
    marketStep cfg false envi executedAmt =
      .retNil (sliceSize cfg executedAmt be, be.price) executedAmt := by
  unfold marketStep
  rw [hbe]
  simp only [ho]
  simp

/-- An armed step whose termination check fails continues with the
accumulated fill. -/
theorem marketStep_cont_of (cfg : SweepCfg) (envi : IterEnv) (executedAmt : ℚ)
    (be : BookEntry) (o : Order)
    (hbe : getOrderBookEntry cfg.side envi.bookRes = .ok be)
    (ho : envi.newOrder (sliceSize cfg executedAmt be) be.price = .ok o)
    (hcond : ¬ ((cfg.amount > 0 ∧
        accumulate cfg.amount executedAmt o ≥ cfg.amount - cfg.minAmt) ∨
      (cfg.baseAmount > 0 ∧
        accumulate cfg.amount executedAmt o ≥ cfg.baseAmount - cfg.minAmt))) :
    marketStep cfg true envi executedAmt =
      .cont (sliceSize cfg executedAmt be, be.price)
        (accumulate cfg.amount executedAmt o) := by
  unfold marketStep
  rw [hbe]
  simp only [ho]
  simp only [if_neg hcond]
  simp

/-- An armed step whose termination check succeeds returns nil with the
accumulated fill. -/
theorem marketStep_retNil_of (cfg : SweepCfg) (envi : IterEnv) (executedAmt : ℚ)
    (be : BookEntry) (o : Order)
    (hbe : getOrderBookEntry cfg.side envi.bookRes = .ok be)
    (ho : envi.newOrder (sliceSize cfg executedAmt be) be.price = .ok o)
    (hcond : (cfg.amount > 0 ∧
        accumulate cfg.amount executedAmt o ≥ cfg.amount - cfg.minAmt) ∨
      (cfg.baseAmount > 0 ∧
        accumulate cfg.amount executedAmt o ≥ cfg.baseAmount - cfg.minAmt)) :
    marketStep cfg true envi executedAmt =
      .retNil (sliceSize cfg executedAmt be, be.price)
        (accumulate cfg.amount executedAmt o) := by
  unfold marketStep
  rw [hbe]
  simp only [ho]
  simp only [if_pos hcond]
  simp

example : round (399/200000 : ℚ) 8 = 1995/1000000 := by norm_num [round, trunc, pow10]
example : round (3/2000000 : ℚ) 6 = 1/500000 := by norm_num [round, trunc, pow10]
example : round (-(7 : ℚ)/10000000) 6 = 0 := by norm_num [round, trunc, pow10]
example : sweepCfg "btcusd" "sell" 0 2 25 false = ⟨"sell", 8, 0, 2, 1/1000000, false⟩ := by
  norm_num [sweepCfg, computeMinAmt, getFeeRatio]
  decide

theorem stateAt_succ_of_cont (cfg : SweepCfg) (env : ℕ → IterEnv) (i : ℕ)
    (sub : ℚ × ℚ) (e : ℚ)
    (h : marketStep cfg true (env i) (stateAt cfg env i) = .cont sub e) :
    stateAt cfg env (i + 1) = e := by
  unfold stateAt
  rw [h]

/-- If every iteration from `k` to 49 continues (book query and submission
succeed, termination check fails), the loop started at `retries = k` with the
corresponding accumulator exhausts the retry budget: it returns the
`Max retries` error after exactly `RETRIES_MAX - k` further submissions. -/
theorem marketLoop_exhaust (cfg : SweepCfg) (env : ℕ → IterEnv) :
    ∀ (n k : ℕ), k + n = RETRIES_MAX →
    ∀ subs : List (ℚ × ℚ),
    (∀ i, k ≤ i → i < RETRIES_MAX →
      ∃ sub e, marketStep cfg true (env i) (stateAt cfg env i) = .cont sub e) →
    (marketLoop cfg true env (n + 1) k (stateAt cfg env k) subs).result =
        .error ERROR_MAX_RETRIES ∧
    (marketLoop cfg true env (n + 1) k (stateAt cfg env k) subs).submissions.length =
        subs.length + n := by
  intro n
  induction n with
  | zero =>
    intro k hk subs _
    have hk' : k = RETRIES_MAX := by omega
    subst hk'
    rw [marketLoop_succ, if_pos rfl]
    exact ⟨rfl, by simp⟩
  | succ n ih =>
    intro k hk subs H
    have hkne : k ≠ RETRIES_MAX := by omega
    obtain ⟨sub, e, hstep⟩ := H k le_rfl (by omega)
    rw [marketLoop_succ, if_neg hkne, hstep]
    have he : stateAt cfg env (k + 1) = e := stateAt_succ_of_cont cfg env k sub e hstep
    have := ih (k + 1) (by omega) (sub :: subs)
      (fun i hi hi' => H i (by omega) hi')
    rw [he] at this
    refine ⟨this.1, ?_⟩
    rw [this.2]
    simp
    omega

/-- C9: for positive raw amount and nonnegative fee basis points, the
fee-adjusted quote target computed before the loop satisfies
buy-adjusted ≤ raw ≤ sell-adjusted, with equality in either direction exactly
when bps = 0. -/
theorem C9_fee_adjust_bounds (mkt : String) (raw baseAmount : ℚ) (bps : ℤ)
    (json : Bool) (hraw : 0 < raw) (hbps : 0 ≤ bps) :
    ((sweepCfg mkt "buy" raw baseAmount bps json).amount ≤ raw ∧
      raw ≤ (sweepCfg mkt "sell" raw baseAmount bps json).amount) ∧
    ((sweepCfg mkt "buy" raw baseAmount bps json).amount = raw ↔ bps = 0) ∧
    ((sweepCfg mkt "sell" raw baseAmount bps json).amount = raw ↔ bps = 0) := by
  have hbuy : (sweepCfg mkt "buy" raw baseAmount bps json).amount =
      raw - raw * ((bps : ℚ) / 10000) := by
    simp [sweepCfg, getFeeRatio]
  have hsell : (sweepCfg mkt "sell" raw baseAmount bps json).amount =
      raw + raw * ((bps : ℚ) / 10000) := by
    simp [sweepCfg, getFeeRatio]
  have hbq : (0 : ℚ) ≤ (bps : ℚ) := by exact_mod_cast hbps
  have hfee : (0 : ℚ) ≤ raw * ((bps : ℚ) / 10000) := by positivity
  have hiff : raw * ((bps : ℚ) / 10000) = 0 ↔ bps = 0 := by
    constructor
    · intro h
      rcases mul_eq_zero.mp h with h' | h'
      · exact absurd h' (ne_of_gt hraw)
      · have h'' := h'
        field_simp at h''
        exact h''
    · intro h
      subst h
      simp
  rw [hbuy, hsell]
  refine ⟨⟨by linarith, by linarith⟩, ?_, ?_⟩
  · constructor
    · intro h
      exact hiff.mp (by linarith)
    · intro h
      rw [hiff.mpr h]
      ring
  · constructor
    · intro h
      exact hiff.mp (by linarith)
    · intro h
      rw [hiff.mpr h]
      ring

theorem C9_fee_adjust_bounds_witness :
    (0 : ℚ) < 100 ∧ (0 : ℤ) ≤ 25 ∧
    (((sweepCfg "btcusd" "buy" 100 0 25 false).amount ≤ 100 ∧
      (100 : ℚ) ≤ (sweepCfg "btcusd" "sell" 100 0 25 false).amount) ∧
    ((sweepCfg "btcusd" "buy" 100 0 25 false).amount = 100 ↔ (25 : ℤ) = 0) ∧
    ((sweepCfg "btcusd" "sell" 100 0 25 false).amount = 100 ↔ (25 : ℤ) = 0)) :=
  ⟨by norm_num, by norm_num,
    C9_fee_adjust_bounds "btcusd" 100 0 25 false (by norm_num) (by norm_num)⟩

/-- C6 counterexample: at v = −0.0000007 and the precision d = 6 the program
uses for non-btcusd markets, the source's `round` (Go `int` conversion, which
truncates toward zero) gives 0, while the spec's
`floor(v × 10^d + 0.5) / 10^d` gives −0.000001. -/
theorem C6_counterexample :
    round (-(7 : ℚ)/10000000) 6 ≠ roundSpec (-(7 : ℚ)/10000000) 6 := by
  have h1 : round (-(7 : ℚ)/10000000) 6 = 0 := by
    unfold round trunc pow10
    rw [if_neg (by norm_num)]
    norm_num
  have h2 : roundSpec (-(7 : ℚ)/10000000) 6 = -(1/1000000) := by
    unfold roundSpec
    norm_num
  rw [h1, h2]
  norm_num

/-- C6 amended: for every value v ≥ 0 and every precision d, the source's
`round` agrees with the spec formula `floor(v × 10^d + 0.5) / 10^d`; for
negative v the Go `int` conversion truncates toward zero instead of flooring. -/
theorem C6_round_formula_nonneg (v : ℚ) (d : ℕ) (hv : 0 ≤ v) :
    round v d = roundSpec v d := by
  unfold round roundSpec trunc pow10
  rw [if_pos]
  have : (0 : ℚ) ≤ v * 10 ^ d := by positivity
  linarith

theorem C6_round_formula_nonneg_witness :
    (0 : ℚ) ≤ 3/2000000 ∧ round (3/2000000 : ℚ) 6 = roundSpec (3/2000000 : ℚ) 6 :=
  ⟨by norm_num, C6_round_formula_nonneg (3/2000000) 6 (by norm_num)⟩

/-- C1 amended: the fee adjustment is applied exactly once, before the loop
begins, and only to the quote amount: the loop's quote target is
raw × (1 − bps/10000) for buy and raw × (1 + bps/10000) otherwise, while the
base amount enters the loop unadjusted, also when the request is
base-denominated. -/
theorem C1_fee_adjust_quote_only (mkt side : String) (amount baseAmount : ℚ)
    (bps : ℤ) (json : Bool) :
    (sweepCfg mkt side amount baseAmount bps json).amount =
      (if side = "buy" then amount * (1 - (bps : ℚ) / 10000)
       else amount * (1 + (bps : ℚ) / 10000)) ∧
    (sweepCfg mkt side amount baseAmount bps json).baseAmount = baseAmount := by
  constructor
  · by_cases h : side = "buy" <;> simp [sweepCfg, getFeeRatio, h] <;> ring
  · rfl

/-- C1 counterexample: a base-denominated sell sweep (btcusd, base-amt = 2,
bps = 25) against full-liquidity fills reaches DONE after one submission with
accumulated amount 2, although 2 is below the claimed sell-adjusted target
2 × (1 + 25/10000) even after subtracting the tolerance minAmt = 0.000001 —
so the pursued target of a base-denominated sweep is the raw base amount, not
raw × (1 + bps/10000). -/
theorem C1_counterexample :
    (market "btcusd" "sell" 0 2 25 true false envC1).result = .ok () ∧
    (market "btcusd" "sell" 0 2 25 true false envC1).submissions = [(2, 100)] ∧
    (market "btcusd" "sell" 0 2 25 true false envC1).executedAmt = 2 ∧
    (2 : ℚ) < 2 * (1 + (25 : ℚ) / 10000) - 1/1000000 := by
  have hcfg : sweepCfg "btcusd" "sell" 0 2 25 false =
      ⟨"sell", 8, 0, 2, 1/1000000, false⟩ := by
    norm_num [sweepCfg, computeMinAmt, getFeeRatio]
    decide
  have hslice : sliceSize ⟨"sell", 8, 0, 2, 1/1000000, false⟩ 0 ⟨100, 10⟩ = 2 := by
    norm_num [sliceSize, rawSlice, round, trunc, pow10]
  have hstep : marketStep ⟨"sell", 8, 0, 2, 1/1000000, false⟩ true (envC1 0) 0 =
      .retNil (2, 100) 2 := by
    rw [marketStep_retNil_of ⟨"sell", 8, 0, 2, 1/1000000, false⟩ (envC1 0) 0
      ⟨100, 10⟩ ⟨2, 100⟩ rfl (by rw [hslice]; rfl) (by norm_num [accumulate])]
    rw [hslice]
    norm_num [accumulate]
  rw [market_def, if_neg (by norm_num), hcfg, marketLoop_succ, if_neg (by decide), hstep]
  refine ⟨rfl, rfl, rfl, by norm_num⟩

/-- C2: the market command registers no "unsafe" flag, and with the flag value
false the command returns nil after exactly one order submission, with the
fill accumulator untouched at 0, whatever the fills would have been — no
accumulation, no further iterations. -/
theorem C2_unarmed_single_submission :
    ("unsafe" ∉ marketFlags) ∧
    ∀ (mkt side : String) (amount baseAmount : ℚ) (bps : ℤ) (json : Bool)
      (env : ℕ → IterEnv) (be : BookEntry),
      ¬(amount ≤ 0 ∧ baseAmount ≤ 0) →
      getOrderBookEntry side (env 0).bookRes = .ok be →
      (∀ q p : ℚ, ∃ o : Order, (env 0).newOrder q p = .ok o) →
      (market mkt side amount baseAmount bps false json env).result = .ok () ∧
      (market mkt side amount baseAmount bps false json env).submissions.length = 1 ∧
      (market mkt side amount baseAmount bps false json env).executedAmt = 0 := by
  refine ⟨by decide, ?_⟩
  intro mkt side amount baseAmount bps json env be hv hbook hno
  obtain ⟨o, ho⟩ :=
    hno (sliceSize (sweepCfg mkt side amount baseAmount bps json) 0 be) be.price
  have hbook' : getOrderBookEntry (sweepCfg mkt side amount baseAmount bps json).side
      (env 0).bookRes = .ok be := hbook
  have hstep : marketStep (sweepCfg mkt side amount baseAmount bps json) false (env 0) 0 =
      .retNil (sliceSize (sweepCfg mkt side amount baseAmount bps json) 0 be, be.price) 0 :=
    marketStep_unarmed_of (sweepCfg mkt side amount baseAmount bps json) (env 0) 0 be o
      hbook' ho
  rw [market_def, if_neg hv, marketLoop_succ, if_neg (by decide), hstep]
  exact ⟨rfl, rfl, rfl⟩

theorem C2_unarmed_single_submission_witness :
    (market "btcusd" "buy" 100 0 25 false false envC8).result = .ok () ∧
    (market "btcusd" "buy" 100 0 25 false false envC8).submissions.length = 1 ∧
    (market "btcusd" "buy" 100 0 25 false false envC8).executedAmt = 0 :=
  C2_unarmed_single_submission.2 "btcusd" "buy" 100 0 25 false envC8 ⟨50000, 1⟩
    (by norm_num) rfl (fun q p => ⟨⟨q, p⟩, rfl⟩)

/-- C3: if on every one of the 50 available iterations the book query and the
order submission succeed but the accumulated amount stays below the
termination threshold (i.e. the step continues), the sweep performs exactly 50
submissions and returns the `Max retries` error. -/
theorem C3_retry_exhaustion (mkt side : String) (amount baseAmount : ℚ)
    (bps : ℤ) (json : Bool) (env : ℕ → IterEnv)
    (hv : ¬(amount ≤ 0 ∧ baseAmount ≤ 0))
    (H : ∀ i, i < RETRIES_MAX →
      ∃ sub e, marketStep (sweepCfg mkt side amount baseAmount bps json) true (env i)
          (stateAt (sweepCfg mkt side amount baseAmount bps json) env i) =
        .cont sub e) :
    (market mkt side amount baseAmount bps true json env).result =
        .error ERROR_MAX_RETRIES ∧
    (market mkt side amount baseAmount bps true json env).submissions.length =
        RETRIES_MAX := by
  rw [market_def, if_neg hv]
  have h := marketLoop_exhaust (sweepCfg mkt side amount baseAmount bps json) env
    RETRIES_MAX 0 (by omega) [] (fun i _ hi' => H i hi')
  exact ⟨h.1, by simpa using h.2⟩

theorem C3_retry_exhaustion_witness :
    (market "btcusd" "buy" 100 0 25 true false envC3).result =
        .error ERROR_MAX_RETRIES ∧
    (market "btcusd" "buy" 100 0 25 true false envC3).submissions.length =
        RETRIES_MAX := by
  apply C3_retry_exhaustion
  · norm_num
  · have hcfg : sweepCfg "btcusd" "buy" 100 0 25 false =
        ⟨"buy", 8, 399/4, 0, 1/100, false⟩ := by
      norm_num [sweepCfg, computeMinAmt, getFeeRatio]
    have hslice : sliceSize ⟨"buy", 8, 399/4, 0, 1/100, false⟩ 0 ⟨50000, 1⟩ =
        1995/1000000 := by
      norm_num [sliceSize, rawSlice, round, trunc, pow10]
    have hstep : ∀ i : ℕ, marketStep ⟨"buy", 8, 399/4, 0, 1/100, false⟩ true (envC3 i) 0 =
        .cont (1995/1000000, 50000) 0 := by
      intro i
      rw [marketStep_cont_of ⟨"buy", 8, 399/4, 0, 1/100, false⟩ (envC3 i) 0
        ⟨50000, 1⟩ ⟨0, 0⟩ rfl (by rw [hslice]; rfl) (by norm_num [accumulate])]
      rw [hslice]
      norm_num [accumulate]
    have hstate : ∀ i, stateAt ⟨"buy", 8, 399/4, 0, 1/100, false⟩ envC3 i = 0 := by
      intro i
      induction i with
      | zero => rfl
      | succ n ihn =>
        unfold stateAt
        rw [ihn, hstep n]
    intro i _
    rw [hcfg, hstate i]
    exact ⟨_, _, hstep i⟩

/-- C4 counterexample: on market ethusd (6 decimals) with top-of-book amount
0.0000015 at price 1, the clamped submitted slice is
round(0.0000015, 6) = 0.000002, which exceeds the quantity displayed at the
top of the book — refuting "the submitted slice never exceeds the quantity
displayed at the top of book". -/
theorem C4_counterexample :
    (market "ethusd" "buy" 100 0 0 false false envC4).submissions =
      [(1/500000, 1)] ∧
    (3/2000000 : ℚ) < 1/500000 := by
  have hcfg : sweepCfg "ethusd" "buy" 100 0 0 false =
      ⟨"buy", 6, 100, 0, 1/100, false⟩ := by
    norm_num [sweepCfg, computeMinAmt, getFeeRatio]
    decide
  have hslice : sliceSize ⟨"buy", 6, 100, 0, 1/100, false⟩ 0 ⟨1, 3/2000000⟩ =
      1/500000 := by
    norm_num [sliceSize, rawSlice, round, trunc, pow10]
  have hstep : marketStep ⟨"buy", 6, 100, 0, 1/100, false⟩ false (envC4 0) 0 =
      .retNil (1/500000, 1) 0 := by
    rw [marketStep_unarmed_of ⟨"buy", 6, 100, 0, 1/100, false⟩ (envC4 0) 0
      ⟨1, 3/2000000⟩ ⟨1/500000, 1⟩ rfl (by rw [hslice]; rfl)]
    rw [hslice]
  rw [market_def, if_neg (by norm_num), hcfg, marketLoop_succ, if_neg (by decide), hstep]
  exact ⟨rfl, by norm_num⟩

/-- C4 amended: when the displayed top-of-book amount is below the computed
raw slice, the submitted slice equals round(bookEntry.amount, decimals); the
submitted slice can exceed the displayed quantity by at most half of one
rounding step 10^-decimals (and in the unclamped case never exceeds it). -/
theorem C4_clamp_rounds_book_amount (cfg : SweepCfg) (executedAmt : ℚ)
    (be : BookEntry) (hba : 0 ≤ be.amount) :
    (be.amount < rawSlice cfg executedAmt be →
      sliceSize cfg executedAmt be = round be.amount cfg.decimals) ∧
    sliceSize cfg executedAmt be ≤ be.amount + 1 / (2 * pow10 cfg.decimals) := by
  have hp : (0 : ℚ) < pow10 cfg.decimals := by unfold pow10; positivity
  have hround : round be.amount cfg.decimals ≤
      be.amount + 1 / (2 * pow10 cfg.decimals) := by
    unfold round trunc
    rw [if_pos (by nlinarith [mul_nonneg hba hp.le])]
    rw [div_le_iff₀ hp]
    have hfl : ((⌊be.amount * pow10 cfg.decimals + 1/2⌋ : ℤ) : ℚ) ≤
        be.amount * pow10 cfg.decimals + 1/2 := Int.floor_le _
    have hexp : (be.amount + 1 / (2 * pow10 cfg.decimals)) * pow10 cfg.decimals =
        be.amount * pow10 cfg.decimals + 1/2 := by
      field_simp
      ring
    rw [hexp]
    exact hfl
  constructor
  · intro h
    simp only [sliceSize]
    rw [if_pos h]
  · simp only [sliceSize]
    by_cases h : be.amount < rawSlice cfg executedAmt be
    · rw [if_pos h]
      exact hround
    · rw [if_neg h]
      push_neg at h
      have : (0 : ℚ) < 1 / (2 * pow10 cfg.decimals) := by positivity
      linarith

theorem C4_clamp_rounds_book_amount_witness :
    (0 : ℚ) ≤ 3/2000000 ∧
    (((3/2000000 : ℚ) < rawSlice ⟨"buy", 6, 100, 0, 1/100, false⟩ 0 ⟨1, 3/2000000⟩ →
      sliceSize ⟨"buy", 6, 100, 0, 1/100, false⟩ 0 ⟨1, 3/2000000⟩ =
        round (3/2000000) 6) ∧
    sliceSize ⟨"buy", 6, 100, 0, 1/100, false⟩ 0 ⟨1, 3/2000000⟩ ≤
      3/2000000 + 1 / (2 * pow10 6)) :=
  ⟨by norm_num,
    C4_clamp_rounds_book_amount ⟨"buy", 6, 100, 0, 1/100, false⟩ 0 ⟨1, 3/2000000⟩
      (by norm_num)⟩

/-- C5: any iteration of the armed sweep that submits successfully and does
not abort (it continues or returns nil) updates the accumulator from the
returned fill by the rule fixed for the whole sweep by the sign of the
fee-adjusted quote amount: plus executedAmount × avgExecutionPrice when
cfg.amount > 0, plus executedAmount otherwise. -/
theorem C5_fill_accounting (cfg : SweepCfg) (envi : IterEnv) (executedAmt : ℚ)
    (sub : ℚ × ℚ) (executedAmt' : ℚ)
    (h : marketStep cfg true envi executedAmt = .cont sub executedAmt' ∨
         marketStep cfg true envi executedAmt = .retNil sub executedAmt') :
    ∃ o : Order, envi.newOrder sub.1 sub.2 = .ok o ∧
      executedAmt' = (if cfg.amount > 0 then
          executedAmt + o.executedAmount * o.avgExecutionPrice
        else executedAmt + o.executedAmount) := by
  cases hb : getOrderBookEntry cfg.side envi.bookRes with
  | error e =>
    have hstep : marketStep cfg true envi executedAmt = .errBeforeSubmit e := by
      unfold marketStep
      rw [hb]
    rw [hstep] at h
    rcases h with h | h <;> simp at h
  | ok be =>
    cases ho : envi.newOrder (sliceSize cfg executedAmt be) be.price with
    | error e =>
      have hstep : marketStep cfg true envi executedAmt =
          .errAtSubmit e (sliceSize cfg executedAmt be, be.price) := by
        unfold marketStep
        rw [hb]
        simp only [ho]
      rw [hstep] at h
      rcases h with h | h <;> simp at h
    | ok o =>
      by_cases hc : (cfg.amount > 0 ∧
          accumulate cfg.amount executedAmt o ≥ cfg.amount - cfg.minAmt) ∨
        (cfg.baseAmount > 0 ∧
          accumulate cfg.amount executedAmt o ≥ cfg.baseAmount - cfg.minAmt)
      · rw [marketStep_retNil_of cfg envi executedAmt be o hb ho hc] at h
        rcases h with h | h
        · simp at h
        · simp only [StepRes.retNil.injEq] at h
          obtain ⟨h1, h2⟩ := h
          subst h1
          subst h2
          exact ⟨o, ho, rfl⟩
      · rw [marketStep_cont_of cfg envi executedAmt be o hb ho hc] at h
        rcases h with h | h
        · simp only [StepRes.cont.injEq] at h
          obtain ⟨h1, h2⟩ := h
          subst h1
          subst h2
          exact ⟨o, ho, rfl⟩
        · simp at h

theorem C5_fill_accounting_witness :
    ∃ o : Order, (envC8 0).newOrder ((1995/1000000, 50000) : ℚ × ℚ).1
        ((1995/1000000, 50000) : ℚ × ℚ).2 = .ok o ∧
      (399/4 : ℚ) = (if (sweepCfg "btcusd" "buy" 100 0 25 false).amount > 0 then
          0 + o.executedAmount * o.avgExecutionPrice
        else 0 + o.executedAmount) := by
  apply C5_fill_accounting (sweepCfg "btcusd" "buy" 100 0 25 false) (envC8 0) 0
    (1995/1000000, 50000) (399/4)
  right
  have hcfg : sweepCfg "btcusd" "buy" 100 0 25 false =
      ⟨"buy", 8, 399/4, 0, 1/100, false⟩ := by
    norm_num [sweepCfg, computeMinAmt, getFeeRatio]
  rw [hcfg]
  have hslice : sliceSize ⟨"buy", 8, 399/4, 0, 1/100, false⟩ 0 ⟨50000, 1⟩ =
      1995/1000000 := by
    norm_num [sliceSize, rawSlice, round, trunc, pow10]
  rw [marketStep_retNil_of ⟨"buy", 8, 399/4, 0, 1/100, false⟩ (envC8 0) 0
    ⟨50000, 1⟩ ⟨1995/1000000, 50000⟩ rfl (by rw [hslice]; rfl) (by norm_num [accumulate])]
  rw [hslice]
  norm_num [accumulate]

/-- C7: a book query fails with "No asks in book" during a buy sweep exactly
when the asks side of the returned book is empty, and with "No bids in book"
during a sell sweep exactly when the bids side is empty; and any book-query
failure makes the loop return that error immediately, with no further
submissions and the accumulator unchanged. -/
theorem C7_empty_book_fatal :
    (∀ book : Book,
      getOrderBookEntry "buy" (.ok book) = .error ERROR_NO_ASKS ↔ book.asks = []) ∧
    (∀ book : Book,
      getOrderBookEntry "sell" (.ok book) = .error ERROR_NO_BIDS ↔ book.bids = []) ∧
    (∀ (cfg : SweepCfg) (armed : Bool) (env : ℕ → IterEnv) (fuel retries : ℕ)
      (executedAmt : ℚ) (subs : List (ℚ × ℚ)) (e : String),
      retries ≠ RETRIES_MAX →
      getOrderBookEntry cfg.side (env retries).bookRes = .error e →
      marketLoop cfg armed env (fuel + 1) retries executedAmt subs =
        ⟨.error e, subs.reverse, executedAmt⟩) := by
  refine ⟨?_, ?_, ?_⟩
  · intro book
    cases h : book.asks with
    | nil => simp [getOrderBookEntry, h]
    | cons a l => simp [getOrderBookEntry, h]
  · intro book
    cases h : book.bids with
    | nil => simp [getOrderBookEntry, h]
    | cons b l => simp [getOrderBookEntry, h]
  · intro cfg armed env fuel retries executedAmt subs e hne hq
    rw [marketLoop_succ, if_neg hne]
    simp only [marketStep, hq]

theorem C7_empty_book_fatal_witness :
    getOrderBookEntry "buy" (.ok ⟨[], [⟨100, 10⟩]⟩) = .error ERROR_NO_ASKS ∧
    marketLoop ⟨"buy", 8, 399/4, 0, 1/100, false⟩ true
        (fun _ => ⟨.ok ⟨[], [⟨100, 10⟩]⟩, fun q p => .ok ⟨q, p⟩⟩)
        (RETRIES_MAX + 1) 0 0 [] =
      ⟨.error ERROR_NO_ASKS, [], 0⟩ :=
  ⟨(C7_empty_book_fatal.1 ⟨[], [⟨100, 10⟩]⟩).mpr rfl,
    C7_empty_book_fatal.2.2 ⟨"buy", 8, 399/4, 0, 1/100, false⟩ true
      (fun _ => ⟨.ok ⟨[], [⟨100, 10⟩]⟩, fun q p => .ok ⟨q, p⟩⟩)
      RETRIES_MAX 0 0 [] ERROR_NO_ASKS (by decide)
      ((C7_empty_book_fatal.1 ⟨[], [⟨100, 10⟩]⟩).mpr rfl)⟩

/-- C8: the spec's example scenario: btcusd buy sweep of 100 USD at 25 bps
against a book always offering price 50000 with amount 1.0 and fully executing
orders — the adjusted target is 99.75, the single submitted slice is
round(99.75/50000, 8) = 0.001995, the accumulated amount is
0.001995 × 50000 = 99.75, within minAmt = 0.01 of the target, and the sweep
returns nil (DONE) after exactly one iteration. -/
theorem C8_example_scenario :
    (sweepCfg "btcusd" "buy" 100 0 25 false).amount = 399/4 ∧
    (sweepCfg "btcusd" "buy" 100 0 25 false).minAmt = 1/100 ∧
    round ((399/4) / 50000) 8 = 1995/1000000 ∧
    (market "btcusd" "buy" 100 0 25 true false envC8).result = .ok () ∧
    (market "btcusd" "buy" 100 0 25 true false envC8).submissions =
      [(1995/1000000, 50000)] ∧
    (market "btcusd" "buy" 100 0 25 true false envC8).executedAmt = 399/4 ∧
    (1995/1000000 : ℚ) * 50000 = 399/4 ∧
    (399/4 : ℚ) ≥ 399/4 - 1/100 := by
  have hcfg : sweepCfg "btcusd" "buy" 100 0 25 false =
      ⟨"buy", 8, 399/4, 0, 1/100, false⟩ := by
    norm_num [sweepCfg, computeMinAmt, getFeeRatio]
  have hslice : sliceSize ⟨"buy", 8, 399/4, 0, 1/100, false⟩ 0 ⟨50000, 1⟩ =
      1995/1000000 := by
    norm_num [sliceSize, rawSlice, round, trunc, pow10]
  have hstep : marketStep ⟨"buy", 8, 399/4, 0, 1/100, false⟩ true (envC8 0) 0 =
      .retNil (1995/1000000, 50000) (399/4) := by
    rw [marketStep_retNil_of ⟨"buy", 8, 399/4, 0, 1/100, false⟩ (envC8 0) 0
      ⟨50000, 1⟩ ⟨1995/1000000, 50000⟩ rfl (by rw [hslice]; rfl) (by norm_num [accumulate])]
    rw [hslice]
    norm_num [accumulate]
  refine ⟨by rw [hcfg], by rw [hcfg], by norm_num [round, trunc, pow10], ?_⟩
  rw [market_def, if_neg (by norm_num), hcfg, marketLoop_succ, if_neg (by decide), hstep]
  exact ⟨rfl, rfl, rfl, by norm_num, by norm_num⟩

/-- C10: a buy sweep with amt > 0, base-amt = 0 and bps ≥ 10000 has a
fee-adjusted quote amount ≤ 0, so its termination check is false on every
iteration regardless of the fills returned; whenever every book query and
order submission succeeds, the sweep always ends with the `Max retries`
error after its 50 submissions, never reaching DONE. -/
theorem C10_fee_over_100pct (mkt : String) (amount : ℚ) (bps : ℤ) (json : Bool)
    (env : ℕ → IterEnv) (ha : 0 < amount) (hb : 10000 ≤ bps)
    (henv : ∀ i, i < RETRIES_MAX →
      (∃ be, getOrderBookEntry "buy" (env i).bookRes = .ok be) ∧
      (∀ q p : ℚ, ∃ o : Order, (env i).newOrder q p = .ok o)) :
    (sweepCfg mkt "buy" amount 0 bps json).amount ≤ 0 ∧
    (market mkt "buy" amount 0 bps true json env).result =
        .error ERROR_MAX_RETRIES ∧
    (market mkt "buy" amount 0 bps true json env).submissions.length =
        RETRIES_MAX := by
  have hadj : (sweepCfg mkt "buy" amount 0 bps json).amount =
      amount - amount * ((bps : ℚ) / 10000) := by
    simp [sweepCfg, getFeeRatio]
  have hle : (sweepCfg mkt "buy" amount 0 bps json).amount ≤ 0 := by
    rw [hadj]
    have hbq : (10000 : ℚ) ≤ (bps : ℚ) := by exact_mod_cast hb
    nlinarith
  have hbase : (sweepCfg mkt "buy" amount 0 bps json).baseAmount = 0 := rfl
  refine ⟨hle, ?_⟩
  have hcont : ∀ i, i < RETRIES_MAX →
      ∃ sub e, marketStep (sweepCfg mkt "buy" amount 0 bps json) true (env i)
          (stateAt (sweepCfg mkt "buy" amount 0 bps json) env i) = .cont sub e := by
    intro i hi
    obtain ⟨⟨be, hbe⟩, hno⟩ := henv i hi
    obtain ⟨o, ho⟩ := hno (sliceSize (sweepCfg mkt "buy" amount 0 bps json)
      (stateAt (sweepCfg mkt "buy" amount 0 bps json) env i) be) be.price
    have hbe' : getOrderBookEntry (sweepCfg mkt "buy" amount 0 bps json).side
        (env i).bookRes = .ok be := hbe
    refine ⟨(sliceSize (sweepCfg mkt "buy" amount 0 bps json)
        (stateAt (sweepCfg mkt "buy" amount 0 bps json) env i) be, be.price),
      accumulate (sweepCfg mkt "buy" amount 0 bps json).amount
        (stateAt (sweepCfg mkt "buy" amount 0 bps json) env i) o,
      marketStep_cont_of (sweepCfg mkt "buy" amount 0 bps json) (env i)
        (stateAt (sweepCfg mkt "buy" amount 0 bps json) env i) be o hbe' ho ?_⟩
    rintro (⟨h1, _⟩ | ⟨h1, _⟩)
    · exact absurd h1 (not_lt.mpr hle)
    · rw [hbase] at h1
      exact absurd h1 (lt_irrefl 0)
  rw [market_def, if_neg (fun hx => absurd hx.1 (not_le.mpr ha))]
  have h := marketLoop_exhaust (sweepCfg mkt "buy" amount 0 bps json) env
    RETRIES_MAX 0 (by omega) [] (fun i _ hi' => hcont i hi')
  exact ⟨h.1, by simpa using h.2⟩

theorem C10_fee_over_100pct_witness :
    (sweepCfg "btcusd" "buy" 100 0 10000 false).amount ≤ 0 ∧
    (market "btcusd" "buy" 100 0 10000 true false envC10).result =
        .error ERROR_MAX_RETRIES ∧
    (market "btcusd" "buy" 100 0 10000 true false envC10).submissions.length =
        RETRIES_MAX :=
  C10_fee_over_100pct "btcusd" 100 10000 false envC10 (by norm_num) (by norm_num)
    (fun i _ => ⟨⟨⟨50000, 1⟩, rfl⟩, fun q p => ⟨⟨1000000, 1⟩, rfl⟩⟩)

end Gemini
